import Mathlib

/-!
Verification of the frame-analyser core: a shallow embedding of the
color/font codec, the icon classifier, the extraction upserts, the
summary aggregator and the LVGL export encoder, with theorems settling
the frozen claims about them.
-/

namespace FrameAnalyser

/-! ## Character and string primitives (JS semantics) -/

/-- ASCII decimal digit. -/
def isAsciiDigit (c : Char) : Bool := '0' ≤ c && c ≤ '9'

/-- ASCII letter or digit (the JS word-character class minus underscore). -/
def isAlnumChar (c : Char) : Bool :=
  isAsciiDigit c || ('a' ≤ c && c ≤ 'z') || ('A' ≤ c && c ≤ 'Z')

/-- ASCII whitespace as matched by the JS `\s` class (ASCII part). -/
def isJsSpace (c : Char) : Bool :=
  c = ' ' || c = '\t' || c = '\n' || c = '\x0d' || c = '\x0b' || c = '\x0c'

/-- ASCII lower-casing of one character, as `String.prototype.toLowerCase`
acts on ASCII. -/
def toLowerChar (c : Char) : Char :=
  if 'A' ≤ c && c ≤ 'Z' then Char.ofNat (c.toNat + 32) else c

/-- ASCII upper-casing of one character, as `String.prototype.toUpperCase`
acts on ASCII. -/
def toUpperChar (c : Char) : Char :=
  if 'a' ≤ c && c ≤ 'z' then Char.ofNat (c.toNat - 32) else c

/-- ASCII lower-casing of a string. -/
def lowerStr (s : String) : String := String.mk (s.data.map toLowerChar)

/-- ASCII upper-casing of a string. -/
def upperStr (s : String) : String := String.mk (s.data.map toUpperChar)

/-- `String.prototype.trim`: strip leading and trailing whitespace. -/
def trimStr (s : String) : String :=
  String.mk (((s.data.dropWhile isJsSpace).reverse.dropWhile isJsSpace).reverse)

/-- JS `Math.round` on an exact rational: floor of the value plus one half
(JS rounds halves toward positive infinity). -/
def jsRoundQ (q : ℚ) : ℤ := ⌊q + 1 / 2⌋

/-- `Math.round (a / b)` for natural `a` and positive natural `b`,
computed without leaving ℕ. -/
def jsRoundNat (a b : ℕ) : ℕ := (2 * a + b) / (2 * b)

/-- JS string truthiness of a nullable string: `null` and `""` are falsy. -/
def strTruthy : Option String → Bool
  | none => false
  | some s => !s.isEmpty

/-- JS `a || b` on strings: `a` unless it is empty. -/
def jsOrStr (a b : String) : String := if a = "" then b else a

/-! ## Hex digits and number formatting -/

/-- One hexadecimal digit, as the regex class `[a-f\d]` with the `i` flag. -/
def isHexDigit (c : Char) : Bool :=
  isAsciiDigit c || ('a' ≤ c && c ≤ 'f') || ('A' ≤ c && c ≤ 'F')

/-- Numeric value of a hex digit (0 on other characters). -/
def hexVal (c : Char) : ℕ :=
  if isAsciiDigit c then c.toNat - 48
  else if 'a' ≤ c && c ≤ 'f' then c.toNat - 87
  else if 'A' ≤ c && c ≤ 'F' then c.toNat - 55
  else 0

/-- Lower-case hex digit character for a value below 16. -/
def hexDigitLower (n : ℕ) : Char :=
  if n < 10 then Char.ofNat (48 + n) else Char.ofNat (87 + n)

/-- Upper-case hex digit character for a value below 16. -/
def hexDigitUpper (n : ℕ) : Char :=
  if n < 10 then Char.ofNat (48 + n) else Char.ofNat (55 + n)

/-- Digit extraction for `natToHexLower`, structurally recursive on a
fuel bound that always suffices (the value has at most `fuel + 1` digits
whenever `n ≤ 16 ^ fuel`, and `n` itself is such a bound). -/
def natToHexAux : ℕ → ℕ → List Char
  | 0, n => [hexDigitLower (n % 16)]
  | fuel + 1, n =>
      if n < 16 then [hexDigitLower n]
      else natToHexAux fuel (n / 16) ++ [hexDigitLower (n % 16)]

/-- `Number.prototype.toString(16)` on a natural number: minimal
lower-case hex digit list. -/
def natToHexLower (n : ℕ) : List Char := natToHexAux n n

/-- `String.prototype.padStart(width, c)` on a character list. -/
def padStartList (cs : List Char) (width : ℕ) (c : Char) : List Char :=
  List.replicate (width - cs.length) c ++ cs

/-- The JS template `hex.length === 1 ? '0' + hex : hex` used by
`rgbToHex`'s channel formatter. -/
def pad2 (cs : List Char) : List Char := if cs.length = 1 then '0' :: cs else cs

/-! ## Color codec (`rgbToHex`, `hexToRgb`, `hexToRgb565`) -/

/-- One channel of `rgbToHex`: `Math.round(c * 255).toString(16)` padded
to two digits (negative inputs keep the JS minus sign). -/
def toHexByte (c : ℚ) : List Char :=
  let r := jsRoundQ (c * 255)
  pad2 (if r < 0 then '-' :: natToHexLower r.natAbs else natToHexLower r.toNat)

/-- `rgbToHex(r, g, b)`: three rounded channels in hex, prefixed `#`,
whole string upper-cased. -/
def rgbToHex (r g b : ℚ) : String :=
  String.mk (('#' :: (toHexByte r ++ toHexByte g ++ toHexByte b)).map toUpperChar)

/-- The optional `#?` of the hex regexes: drop one leading `#`. -/
def stripHash : List Char → List Char
  | [] => []
  | c :: rest => if c = '#' then rest else c :: rest

/-- The anchored body `([a-f\d]{2})([a-f\d]{2})([a-f\d]{2})$`: exactly six
hex digits give the three parsed 8-bit channels. -/
def sixHexParse : List Char → Option (ℕ × ℕ × ℕ)
  | [c1, c2, c3, c4, c5, c6] =>
      if [c1, c2, c3, c4, c5, c6].all isHexDigit then
        some (16 * hexVal c1 + hexVal c2,
              16 * hexVal c3 + hexVal c4,
              16 * hexVal c5 + hexVal c6)
      else none
  | _ => none

/-- The match of `/^#?([a-f\d]{2})([a-f\d]{2})([a-f\d]{2})$/i`: the three
parsed 8-bit channels, or `none` when the string is not six hex digits
optionally preceded by `#`. -/
def matchHexTriple (s : String) : Option (ℕ × ℕ × ℕ) :=
  sixHexParse (stripHash s.data)

/-- `hexToRgb(hex)`: channels rescaled to `[0,1]`, or black on a string
that fails the pattern. -/
def hexToRgb (s : String) : ℚ × ℚ × ℚ :=
  match matchHexTriple s with
  | none => (0, 0, 0)
  | some (r8, g8, b8) => ((r8 : ℚ) / 255, (g8 : ℚ) / 255, (b8 : ℚ) / 255)

/-- The RGB565 packing `(r5 << 11) | (g6 << 5) | b5` of the three rescaled
channels. -/
def rgb565pack (r8 g8 b8 : ℕ) : ℕ :=
  ((jsRoundNat (r8 * 31) 255) <<< 11) ||| ((jsRoundNat (g8 * 63) 255) <<< 5) |||
    jsRoundNat (b8 * 31) 255

/-- `'0x' + n.toString(16).toUpperCase().padStart(4, '0')`. -/
def rgb565str (n : ℕ) : String :=
  "0x" ++ String.mk (padStartList ((natToHexLower n).map toUpperChar) 4 '0')

/-- `hexToRgb565(hex)`: RGB565 encoding as a 4-digit upper-case hex
string, or the sentinel `"0x0000"` on a string that fails the pattern. -/
def hexToRgb565 (s : String) : String :=
  match matchHexTriple s with
  | none => "0x0000"
  | some (r8, g8, b8) => rgb565str (rgb565pack r8 g8 b8)

/-! ## Icon name heuristic

The regex `/(^|\b|[_\-\s])(ic|icon)([_\-\s]|\b|$)/i` accepts a boundary
before the token when the position is the start of the string, a JS word
boundary (previous character outside `[A-Za-z0-9_]`), or a character of
`[_\-\s]`; since the token starts with a letter, these cases together say
exactly that the previous character is not an ASCII letter or digit, and
symmetrically after the token. -/

/-- The right context `([_\-\s]|\b|$)` at the head of the remaining
characters. -/
def rightOk : List Char → Bool
  | [] => true
  | c :: _ => !isAlnumChar c

/-- Does `(ic|icon)([_\-\s]|\b|$)` match at the head of the list? -/
def startsIconTok (cs : List Char) : Bool :=
  (decide (cs.take 2 = ['i', 'c']) && rightOk (cs.drop 2)) ||
    (decide (cs.take 4 = ['i', 'c', 'o', 'n']) && rightOk (cs.drop 4))

/-- Scan for the token anywhere, tracking whether the left context
`(^|\b|[_\-\s])` holds at the current position. -/
def scanIconTok : Bool → List Char → Bool
  | _, [] => false
  | lb, c :: rest => (lb && startsIconTok (c :: rest)) || scanIconTok (!isAlnumChar c) rest

/-- `/(^|\b|[_\-\s])(ic|icon)([_\-\s]|\b|$)/i.test(s)` (the `i` flag is
modelled by lower-casing the input first). -/
def hasIconToken (s : String) : Bool := scanIconTok true (lowerStr s).data

/-- Plain substring search for `icon`, one position at a time. -/
def subIconAux : List Char → Bool
  | [] => false
  | c :: rest => decide ((c :: rest).take 4 = ['i', 'c', 'o', 'n']) || subIconAux rest

/-- `/icon/i.test(s)`: case-insensitive substring check. -/
def containsIconSub (s : String) : Bool := subIconAux (lowerStr s).data

/-- A resolved main component as `isComponentAnIcon` reads it: its name,
its parent variant-set name when the parent is a `COMPONENT_SET`, and its
variant properties when readable. -/
structure MainComponent where
  name : String
  setName : Option String
  variantProps : Option (List (String × String))

/-- The variant-set name as the code computes it (empty when there is no
`COMPONENT_SET` parent). -/
def setNameStr (mc : MainComponent) : String :=
  match mc.setName with
  | some s => s
  | none => ""

/-- `isComponentAnIcon(mainComponent)`: icon when the trimmed component
name or the set name matches the icon-token regex, or any variant
property key or value contains `icon`; size is computed in the source
only as an unused supportive hint and does not take part in the
decision. -/
def isComponentAnIcon (mc : MainComponent) : Bool :=
  let compName := trimStr mc.name
  let looksLikeIconByName := hasIconToken compName || hasIconToken (setNameStr mc)
  let looksLikeIconByVariant :=
    match mc.variantProps with
    | none => false
    | some vp => vp.any fun kv => containsIconSub kv.1 || containsIconSub kv.2
  looksLikeIconByName || looksLikeIconByVariant

/-! ## Paint extraction (fills and strokes) -/

/-- A solid color as the host reports it, channels in `[0,1]`. -/
structure Rgb where
  r : ℚ
  g : ℚ
  b : ℚ

/-- One entry of a node's `fills` or `strokes` array. -/
structure Paint where
  ptype : String
  color : Option Rgb
  visible : Bool
  opacity : Option ℚ

/-- One stored `ColorUsage`: hex, opacity, associated style name and
whether a fill or a stroke produced it first. -/
structure ColorInfo where
  hex : String
  opacity : ℚ
  styleName : Option String
  type : String

/-- The key `opacity < 1 ? hex + '@' + Math.round(opacity*100) + '%' : hex`. -/
def colorKeyOf (hex : String) (opacity : ℚ) : String :=
  if opacity < 1 then hex ++ "@" ++ toString (jsRoundQ (opacity * 100)) ++ "%" else hex

/-- The create-or-backfill step on the colors map: insert when the key is
new, otherwise only fill in a missing style name. -/
def upsertColor (colors : List (String × ColorInfo)) (key : String) (info : ColorInfo) :
    List (String × ColorInfo) :=
  match colors.lookup key with
  | none => colors ++ [(key, info)]
  | some old =>
      if strTruthy info.styleName && !strTruthy old.styleName then
        colors.map fun p =>
          if p.1 = key then (p.1, { p.2 with styleName := info.styleName }) else p
      else colors

/-- One iteration of the fill/stroke loop of `analyzeNode`: solid,
visible, non-zero-opacity paints are keyed and upserted; `styleName` is
the node's resolved fill (or stroke) style name and `kind` the tag
`"fill"` or `"stroke"`. -/
def processPaint (styleName : Option String) (kind : String)
    (colors : List (String × ColorInfo)) (p : Paint) : List (String × ColorInfo) :=
  if p.ptype = "SOLID" && p.color.isSome && p.visible && !decide (p.opacity = some 0) then
    let rgb := p.color.getD ⟨0, 0, 0⟩
    let hex := rgbToHex rgb.r rgb.g rgb.b
    let opacity := p.opacity.getD 1
    upsertColor colors (colorKeyOf hex opacity) ⟨hex, opacity, styleName, kind⟩
  else colors

/-- The whole fill (or stroke) loop over a node's paint list. -/
def processPaints (styleName : Option String) (kind : String) (paints : List Paint)
    (colors : List (String × ColorInfo)) : List (String × ColorInfo) :=
  paints.foldl (processPaint styleName kind) colors

/-- One stored `FontUsage` (size kept as its display text so that the
`Unknown` and `Mixed` sentinels are representable). -/
structure FontInfo where
  fontFamily : String
  fontStyle : String
  fontSize : String
  styleName : Option String

/-- The create-or-backfill step on the fonts map, same policy as
`upsertColor`. -/
def upsertFont (fonts : List (String × FontInfo)) (key : String) (info : FontInfo) :
    List (String × FontInfo) :=
  match fonts.lookup key with
  | none => fonts ++ [(key, info)]
  | some old =>
      if strTruthy info.styleName && !strTruthy old.styleName then
        fonts.map fun p =>
          if p.1 = key then (p.1, { p.2 with styleName := info.styleName }) else p
      else fonts

/-! ## The visibility/size gate -/

/-- The slice of a node that the gate and the color extraction read. -/
structure NodeModel where
  visible : Bool
  width : ℚ
  height : ℚ
  fills : List Paint
  strokes : List Paint
  fillStyleName : Option String
  strokeStyleName : Option String

/-- The `findAll` predicate of `analyzeFrame`:
`node.visible !== false && (node.width >= 1 || node.height >= 1)`. -/
def findAllKeep (n : NodeModel) : Bool :=
  n.visible && (decide (n.width ≥ 1) || decide (n.height ≥ 1))

/-- The early exit of `analyzeNode`:
`node.visible === false || (node.width < 1 && node.height < 1)`. -/
def analyzeNodeSkip (n : NodeModel) : Bool :=
  !n.visible || (decide (n.width < 1) && decide (n.height < 1))

/-- The color-extraction slice of `analyzeNode`: nothing when the gate
fires, otherwise the fill loop then the stroke loop. -/
def analyzeNodeColors (n : NodeModel) (colors : List (String × ColorInfo)) :
    List (String × ColorInfo) :=
  if analyzeNodeSkip n then colors
  else processPaints n.strokeStyleName "stroke" n.strokes
    (processPaints n.fillStyleName "fill" n.fills colors)

/-! ## Component references and the reclassification pass -/

/-- One stored `ComponentReference` (the fields the aggregation reads;
`name` and `setName` are read through `||` chains and are empty on the
records this code produces). -/
structure CompRef where
  masterName : String
  variantName : Option String
  fullName : String
  name : String
  setName : String
  isVariant : Bool
  instanceCount : ℕ
  isIcon : Bool
deriving DecidableEq

/-- The display name `comp.masterName || comp.fullName || comp.name`. -/
def reclassName (c : CompRef) : String := jsOrStr c.masterName (jsOrStr c.fullName c.name)

/-- The relaxed reclassification test of
`normalizeComponentIconClassification`: the word-boundary regex on the
display name, a bare substring test on the recorded set name, or an
already-true `isIcon` flag. -/
def looksIconReclass (c : CompRef) : Bool :=
  hasIconToken (lowerStr (reclassName c)) || containsIconSub c.setName || c.isIcon

/-- Set the `isIcon` flag, as `pushComp`/`pushIcon` do before pushing. -/
def setIconFlag (b : Bool) (c : CompRef) : CompRef := { c with isIcon := b }

/-- The combined loop of `normalizeComponentIconClassification` over one
concatenated input list: route every entry to the components or the
icons output, stamping the flag. -/
def reclassify : List CompRef → List CompRef × List CompRef
  | [] => ([], [])
  | c :: rest =>
      let out := reclassify rest
      if looksIconReclass c then (out.1, setIconFlag true c :: out.2)
      else (setIconFlag false c :: out.1, out.2)

/-- `normalizeComponentIconClassification`: rebuild the `components` and
`icons` arrays from their union so that placement follows the relaxed
heuristic. -/
def normalizeComponentIconClassification (comps icons : List CompRef) :
    List CompRef × List CompRef :=
  reclassify (comps ++ icons)

/-! ## Cross-record aggregation (`collectSummaryData`) -/

/-- `Map.has`-guarded `Map.set`: a JS `Map` keeps the first value set for
a key and preserves insertion order. -/
def insertIfAbsent {α : Type} (m : List (String × α)) (k : String) (v : α) :
    List (String × α) :=
  if (m.lookup k).isSome then m else m ++ [(k, v)]

/-- A guarded-set loop: `for (e of l) if (!m.has(key(e))) m.set(key(e), val(e))`. -/
def buildMap {α β : Type} (keyOf : β → String) (valOf : β → α)
    (init : List (String × α)) (l : List β) : List (String × α) :=
  l.foldl (fun m e => insertIfAbsent m (keyOf e) (valOf e)) init

/-- The aggregation key: `masterName` alone for standalone components,
`masterName + ':' + variantName` for variants (a missing variant name
stringifies as JS `null` does in a template). -/
def compKey (c : CompRef) : String :=
  if c.isVariant then
    c.masterName ++ ":" ++
      (match c.variantName with
        | some v => v
        | none => "null")
  else c.masterName

/-- One color entry of a stored analysis record, as `analyzeFrame`
flattens it. -/
structure ColorOut where
  hex : String
  rgb565 : String
  opacity : ℚ
  styleName : Option String
  type : String
deriving DecidableEq

/-- One font entry of a stored analysis record (`fontString` is read by a
fallback chain and is empty on records this code produces). -/
structure FontOut where
  fontFamily : String
  fontStyle : String
  fontSize : String
  styleName : Option String
  displayString : String
  fontString : String
deriving DecidableEq

/-- One cached analysis record, restricted to what the aggregator and the
export encoder read. -/
structure AnalysisRecord where
  components : List CompRef
  icons : List CompRef
  fonts : List FontOut
  colors : List ColorOut

/-- The font aggregation key
`f.displayString || f.fontString || family + ' ' + style + ' ' + size`. -/
def fontSumKey (f : FontOut) : String :=
  jsOrStr f.displayString
    (jsOrStr f.fontString (f.fontFamily ++ " " ++ f.fontStyle ++ " " ++ f.fontSize))

/-- The four aggregation maps of `collectSummaryData`. -/
structure SummaryMaps where
  components : List (String × CompRef)
  icons : List (String × CompRef)
  fonts : List (String × FontOut)
  colors : List (String × ColorOut)

/-- One record's contribution: normalize its components/icons, then
first-wins insert into each of the four maps. -/
def collectStep (acc : SummaryMaps) (rec : AnalysisRecord) : SummaryMaps :=
  let normalized := normalizeComponentIconClassification rec.components rec.icons
  { components := buildMap compKey id acc.components normalized.1
    icons := buildMap compKey id acc.icons normalized.2
    fonts := buildMap fontSumKey id acc.fonts rec.fonts
    colors := buildMap (fun c => c.hex) id acc.colors rec.colors }

/-- The aggregation loop of `collectSummaryData` over the cached records
in iteration order. -/
def collectSummaryData (records : List AnalysisRecord) : SummaryMaps :=
  records.foldl collectStep ⟨[], [], [], []⟩

/-! ## LVGL export (`generateLVGLJson`) -/

/-- The inline identifier cleanup: strip characters other than
alphanumerics, underscore, whitespace and hyphen. -/
def stripBadChars (cs : List Char) : List Char :=
  cs.filter fun c => isAlnumChar c || c = '_' || isJsSpace c || c = '-'

/-- Is the character collapsed by `/[\s-]+/`? -/
def isSpaceOrHyphen (c : Char) : Bool := isJsSpace c || c = '-'

mutual

/-- `replace(/[\s-]+/g, '_')`: copy characters, entering `skipRun` at
the head of a whitespace/hyphen run. -/
def collapseRuns : List Char → List Char
  | [] => []
  | c :: rest =>
      if isSpaceOrHyphen c then '_' :: skipRun rest else c :: collapseRuns rest

/-- Consume the remainder of a whitespace/hyphen run already replaced
by one underscore. -/
def skipRun : List Char → List Char
  | [] => []
  | c :: rest => if isSpaceOrHyphen c then skipRun rest else c :: collapseRuns rest

end

/-- The export key cleanup (named `sanitizeIdentifier` in the spec):
strip, collapse whitespace/hyphen runs to `_`, lower-case. -/
def sanitizeIdentifier (s : String) : String :=
  lowerStr (String.mk (collapseRuns (stripBadChars s.data)))

/-- The typography key source: the style name when truthy, else
`family_style_size` with the code's `||` defaults. -/
def fontStyleKey (f : FontOut) : String :=
  if strTruthy f.styleName then f.styleName.getD ""
  else
    jsOrStr f.fontFamily "unknown" ++ "_" ++ jsOrStr f.fontStyle "regular" ++ "_" ++
      jsOrStr f.fontSize "12"

/-- `String.prototype.replace(t, r)` with a one-character pattern:
replace the first occurrence only. -/
def replaceFirstChar (t : Char) (r : List Char) : List Char → List Char
  | [] => []
  | c :: rest => if c = t then r ++ rest else c :: replaceFirstChar t r rest

/-- The color key source: the style name when truthy, else the defaulted
hex with `#` rewritten to `color_`. -/
def colorStyleKey (c : ColorOut) : String :=
  if strTruthy c.styleName then c.styleName.getD ""
  else String.mk (replaceFirstChar '#' "color_".data (jsOrStr c.hex "#000000").data)

/-- One exported typography entry (field names follow the external
contract). -/
structure FontExport where
  figma_style_name : Option String
  font_family : String
  font_size : String
  font_weight : String
  lvgl_font : String
  lvgl_declaration : String
deriving DecidableEq

/-- One exported color entry (`lvglMacro` carries the
`#define NAME rgb565` statement named `lvgl_macro` in the output). -/
structure ColorExport where
  figma_style_name : Option String
  hex : String
  rgb565 : String
  lvgl_color : String
  lvglMacro : String
deriving DecidableEq

/-- Build one typography entry from a cached font row. -/
def fontExportOf (f : FontOut) : FontExport :=
  let lvglName := sanitizeIdentifier (fontStyleKey f)
  { figma_style_name := if strTruthy f.styleName then f.styleName else none
    font_family := jsOrStr f.fontFamily "unknown"
    font_size := jsOrStr f.fontSize "12"
    font_weight := jsOrStr f.fontStyle "regular"
    lvgl_font := "&" ++ lvglName
    lvgl_declaration := "LV_FONT_DECLARE(" ++ lvglName ++ ");" }

/-- Build one color entry from a cached color row. -/
def colorExportOf (c : ColorOut) : ColorExport :=
  let hex := jsOrStr c.hex "#000000"
  let rgb565 := jsOrStr c.rgb565 (hexToRgb565 hex)
  let lvglName := sanitizeIdentifier (colorStyleKey c)
  { figma_style_name := if strTruthy c.styleName then c.styleName else none
    hex := hex
    rgb565 := rgb565
    lvgl_color := "lv_color_hex(" ++ String.mk (replaceFirstChar '#' "0x".data hex.data) ++ ")"
    lvglMacro := "#define " ++ upperStr lvglName ++ " " ++ rgb565 }

/-- The export document: colors and typography keyed by sanitized
identifier. -/
structure LvglJson where
  colors : List (String × ColorExport)
  typography : List (String × FontExport)

/-- One record's contribution to the export: the fonts loop then the
colors loop, each inserting first-wins under the sanitized key. -/
def lvglStep (acc : LvglJson) (rec : AnalysisRecord) : LvglJson :=
  { typography :=
      buildMap (fun f => sanitizeIdentifier (fontStyleKey f)) fontExportOf
        acc.typography rec.fonts
    colors :=
      buildMap (fun c => sanitizeIdentifier (colorStyleKey c)) colorExportOf
        acc.colors rec.colors }

/-- `generateLVGLJson()`: fold every cached record into the shared
document. -/
def generateLVGLJson (records : List AnalysisRecord) : LvglJson :=
  records.foldl lvglStep ⟨[], []⟩

/-! ## Predicates written from the claims' own words (for comparison
with the code) -/

/-- The claim's literal `#RRGGBB` shape: a mandatory `#` then six hex
digits. -/
def strictHashPattern (s : String) : Bool :=
  match s.data with
  | '#' :: rest => decide (rest.length = 6) && rest.all isHexDigit
  | _ => false

/-- Boolean form of the shape the code actually accepts: six hex digits
after an optional `#`. -/
def isSixHexB (cs : List Char) : Bool := decide (cs.length = 6) && cs.all isHexDigit

/-- Six hex digits, optionally preceded by `#`. -/
def optHashSixHex (s : String) : Prop :=
  ∃ cs : List Char, cs.length = 6 ∧ (∀ c ∈ cs, isHexDigit c = true) ∧
    (s.data = cs ∨ s.data = '#' :: cs)

/-- A byte as exactly two upper-case hex digits. -/
def byteHexU (n : ℕ) : List Char := [hexDigitUpper (n / 16), hexDigitUpper (n % 16)]

/-- A word occurrence of `ic` or `icon` with the relaxed boundaries the
regex implements: the neighbouring characters, when present, are not
ASCII letters or digits. -/
def iconTokenOccurs (cs : List Char) : Prop :=
  ∃ pre tok suf, (tok = ['i', 'c'] ∨ tok = ['i', 'c', 'o', 'n']) ∧
    cs = pre ++ tok ++ suf ∧
    (∀ c, pre.getLast? = some c → isAlnumChar c = false) ∧
    (∀ c, suf.head? = some c → isAlnumChar c = false)

/-- The claim's strict boundary class: underscore, hyphen or whitespace
only. -/
def strictBoundChar (c : Char) : Bool := c = '_' || c = '-' || isJsSpace c

/-- Right context under the claim's strict boundary reading. -/
def strictRightOk : List Char → Bool
  | [] => true
  | c :: _ => strictBoundChar c

/-- Token at the head of the list under the strict boundary reading. -/
def strictStartsTok (cs : List Char) : Bool :=
  (decide (cs.take 2 = ['i', 'c']) && strictRightOk (cs.drop 2)) ||
    (decide (cs.take 4 = ['i', 'c', 'o', 'n']) && strictRightOk (cs.drop 4))

/-- Scan under the strict boundary reading. -/
def strictScanTok : Bool → List Char → Bool
  | _, [] => false
  | lb, c :: rest => (lb && strictStartsTok (c :: rest)) || strictScanTok (strictBoundChar c) rest

/-- Whole-word match of `ic`/`icon` with boundaries limited to start and
end of string, underscore, hyphen and whitespace, as the claim words
them. -/
def strictWordMatch (s : String) : Bool := strictScanTok true (lowerStr s).data

/-- The primary icon classifier exactly as the claim words it: the strict
whole-word rule on the names, else the variant-property substring rule. -/
def claimPrimaryIsIcon (mc : MainComponent) : Bool :=
  strictWordMatch (trimStr mc.name) || strictWordMatch (setNameStr mc) ||
    (match mc.variantProps with
      | none => false
      | some vp => vp.any fun kv => containsIconSub kv.1 || containsIconSub kv.2)

/-- The visibility/size gate as the claim words it: invisible, or both
dimensions round to less than one layout unit. -/
def claimGate (n : NodeModel) : Prop :=
  n.visible = false ∨ (jsRoundQ n.width < 1 ∧ jsRoundQ n.height < 1)

/-- The component named `Button/Icon`, the claim's own word-boundary
example. -/
def buttonIconComp : MainComponent := ⟨"Button/Icon", none, none⟩

/-- A visible 0.7 × 0.7 node carrying one plain solid red fill. -/
def smallRedNode : NodeModel :=
  ⟨true, 7 / 10, 7 / 10, [⟨"SOLID", some ⟨1, 0, 0⟩, true, none⟩], [], none, none⟩

/-! ## Number-formatting lemmas -/

theorem natToHexAux_small (fuel m : ℕ) (hm : m < 16) :
    natToHexAux fuel m = [hexDigitLower m] := by
  cases fuel with
  | zero => simp [natToHexAux, Nat.mod_eq_of_lt hm]
  | succ k => simp [natToHexAux, hm]

theorem natToHexLower_small {n : ℕ} (hn : n < 16) :
    natToHexLower n = [hexDigitLower n] :=
  natToHexAux_small n n hn

theorem natToHexLower_byte {n : ℕ} (h16 : 16 ≤ n) (h : n < 256) :
    natToHexLower n = [hexDigitLower (n / 16), hexDigitLower (n % 16)] := by
  obtain ⟨k, rfl⟩ : ∃ k, n = k + 1 := ⟨n - 1, by omega⟩
  rw [natToHexLower, natToHexAux, if_neg (by omega)]
  rw [natToHexAux_small _ _ (by omega)]
  rfl

theorem toUpperChar_hexDigitLower {n : ℕ} (hn : n < 16) :
    toUpperChar (hexDigitLower n) = hexDigitUpper n := by
  interval_cases n <;> decide

theorem byteFormat {n : ℕ} (h : n < 256) :
    (pad2 (natToHexLower n)).map toUpperChar = byteHexU n := by
  by_cases h16 : n < 16
  · rw [natToHexLower_small h16]
    have hp : pad2 [hexDigitLower n] = ['0', hexDigitLower n] := by simp [pad2]
    rw [hp, byteHexU, Nat.div_eq_of_lt h16, Nat.mod_eq_of_lt h16]
    simp only [List.map_cons, List.map_nil]
    rw [toUpperChar_hexDigitLower h16]
    norm_num
    decide
  · rw [natToHexLower_byte (by omega) h]
    have hq : n / 16 < 16 := by omega
    have hr : n % 16 < 16 := by omega
    have hp : pad2 [hexDigitLower (n / 16), hexDigitLower (n % 16)] =
        [hexDigitLower (n / 16), hexDigitLower (n % 16)] := by simp [pad2]
    rw [hp, byteHexU]
    simp only [List.map_cons, List.map_nil]
    rw [toUpperChar_hexDigitLower hq, toUpperChar_hexDigitLower hr]

/-! ## Rounding lemmas -/

theorem jsRoundQ_intCast (z : ℤ) : jsRoundQ (z : ℚ) = z := by
  rw [jsRoundQ, Int.floor_eq_iff]
  refine ⟨by linarith, by linarith⟩

theorem jsRoundQ_nonneg {q : ℚ} (h : 0 ≤ q) : 0 ≤ jsRoundQ q := by
  rw [jsRoundQ]
  exact Int.floor_nonneg.mpr (by linarith)

theorem jsRoundQ_le_int {q : ℚ} {z : ℤ} (h : q ≤ (z : ℚ)) : jsRoundQ q ≤ z := by
  rw [jsRoundQ]
  have : (⌊q + 1 / 2⌋ : ℤ) < z + 1 := Int.floor_lt.mpr (by push_cast; linarith)
  omega

theorem jsRoundQ_half_bounds (q : ℚ) :
    (jsRoundQ q : ℚ) ≤ q + 1 / 2 ∧ q + 1 / 2 < (jsRoundQ q : ℚ) + 1 := by
  constructor
  · exact Int.floor_le _
  · exact Int.lt_floor_add_one _

theorem jsRoundNat_eq_floor (a b : ℕ) (hb : 0 < b) :
    (jsRoundNat a b : ℤ) = ⌊(a : ℚ) / (b : ℚ) + 1 / 2⌋ := by
  have hb' : (0 : ℚ) < (b : ℚ) := by exact_mod_cast hb
  have hrw : (a : ℚ) / (b : ℚ) + 1 / 2 = ((2 * a + b : ℕ) : ℚ) / ((2 * b : ℕ) : ℚ) := by
    push_cast
    field_simp
    ring
  rw [jsRoundNat, hrw, eq_comm, Int.floor_eq_iff]
  have hmod := Nat.div_add_mod (2 * a + b) (2 * b)
  have hlt : (2 * a + b) % (2 * b) < 2 * b := Nat.mod_lt _ (by omega)
  have h2b : (0 : ℚ) < ((2 * b : ℕ) : ℚ) := by positivity
  have key1 : (2 * a + b) / (2 * b) * (2 * b) ≤ 2 * a + b := Nat.div_mul_le_self _ _
  have key2 : 2 * a + b < ((2 * a + b) / (2 * b) + 1) * (2 * b) := by
    have expand : ((2 * a + b) / (2 * b) + 1) * (2 * b) =
        2 * b * ((2 * a + b) / (2 * b)) + 2 * b := by ring
    omega
  constructor
  · rw [le_div_iff₀ h2b]
    exact_mod_cast key1
  · rw [div_lt_iff₀ h2b]
    push_cast at key2 ⊢
    exact_mod_cast key2

/-! ## Hex pattern characterization -/

theorem sixHexParse_none_iff (cs : List Char) :
    sixHexParse cs = none ↔ isSixHexB cs = false := by
  rcases cs with _ | ⟨a, _ | ⟨b, _ | ⟨c, _ | ⟨d, _ | ⟨e, _ | ⟨f, _ | ⟨g, rest⟩⟩⟩⟩⟩⟩⟩ <;>
    simp [sixHexParse, isSixHexB]

theorem sixHexParse_some {c1 c2 c3 c4 c5 c6 : Char}
    (h : [c1, c2, c3, c4, c5, c6].all isHexDigit = true) :
    sixHexParse [c1, c2, c3, c4, c5, c6] =
      some (16 * hexVal c1 + hexVal c2, 16 * hexVal c3 + hexVal c4,
        16 * hexVal c5 + hexVal c6) := by
  simp [sixHexParse, h]

theorem stripHash_hash (cs : List Char) : stripHash ('#' :: cs) = cs := by
  simp [stripHash]

theorem stripHash_of_ne {c : Char} (rest : List Char) (h : c ≠ '#') :
    stripHash (c :: rest) = c :: rest := by
  simp [stripHash, h]

theorem optHashSixHex_iff (s : String) :
    optHashSixHex s ↔ isSixHexB (stripHash s.data) = true := by
  constructor
  · rintro ⟨cs, hlen, hhex, hcase | hcase⟩
    · rcases cs with _ | ⟨c, rest⟩
      · simp at hlen
      · have hc : c ≠ '#' := by
          intro hc
          have := hhex c (by simp)
          rw [hc] at this
          simp [isHexDigit, isAsciiDigit] at this
        rw [hcase, stripHash_of_ne rest hc, isSixHexB]
        simp only [Bool.and_eq_true, decide_eq_true_eq, List.all_eq_true]
        exact ⟨hlen, hhex⟩
    · rw [hcase, stripHash_hash, isSixHexB]
      simp only [Bool.and_eq_true, decide_eq_true_eq, List.all_eq_true]
      exact ⟨hlen, hhex⟩
  · intro h
    rw [isSixHexB] at h
    simp only [Bool.and_eq_true, decide_eq_true_eq, List.all_eq_true] at h
    rcases hd : s.data with _ | ⟨c, rest⟩
    · rw [hd] at h
      simp [stripHash] at h
    · by_cases hc : c = '#'
      · refine ⟨rest, ?_, ?_, Or.inr (by rw [hd, hc])⟩
        · have := h.1
          rw [hd, hc, stripHash_hash] at this
          exact this
        · intro x hx
          refine h.2 x ?_
          rw [hd, hc, stripHash_hash]
          exact hx
      · refine ⟨c :: rest, ?_, ?_, Or.inl hd⟩
        · have := h.1
          rw [hd, stripHash_of_ne rest hc] at this
          exact this
        · intro x hx
          refine h.2 x ?_
          rw [hd, stripHash_of_ne rest hc]
          exact hx

theorem matchHexTriple_none_iff (s : String) :
    matchHexTriple s = none ↔ ¬ optHashSixHex s := by
  rw [matchHexTriple, sixHexParse_none_iff, optHashSixHex_iff]
  simp

theorem toHexByte_map_upper {c : ℚ} (h0 : 0 ≤ c) (h1 : c ≤ 1) :
    (toHexByte c).map toUpperChar = byteHexU (jsRoundQ (c * 255)).toNat := by
  have hnn : 0 ≤ jsRoundQ (c * 255) := jsRoundQ_nonneg (by positivity)
  have hle : jsRoundQ (c * 255) ≤ 255 := jsRoundQ_le_int (by push_cast; linarith)
  rw [toHexByte]
  simp only [if_neg (not_lt.mpr hnn)]
  exact byteFormat (by omega)

/-- Claim C9: for channels in `[0, 1]`, `rgbToHex` rounds each channel
scaled by 255 half-up, formats each as a two-digit upper-case hex byte
and prepends `#`, so the output always has the `#RRGGBB` shape; in
particular `rgbToHex 1 0 0 = "#FF0000"` and
`rgbToHex 0 0 0 = "#000000"`. -/
theorem C9_rgbToHex_spec :
    (∀ r g b : ℚ, 0 ≤ r → r ≤ 1 → 0 ≤ g → g ≤ 1 → 0 ≤ b → b ≤ 1 →
      (rgbToHex r g b).data =
        '#' :: (byteHexU (jsRoundQ (r * 255)).toNat ++ byteHexU (jsRoundQ (g * 255)).toNat ++
          byteHexU (jsRoundQ (b * 255)).toNat) ∧
      (rgbToHex r g b).length = 7) ∧
    (∀ q : ℚ, (jsRoundQ q : ℚ) ≤ q + 1 / 2 ∧ q + 1 / 2 < (jsRoundQ q : ℚ) + 1) ∧
    rgbToHex 1 0 0 = "#FF0000" ∧ rgbToHex 0 0 0 = "#000000" := by
  have h255 : jsRoundQ (1 * 255) = 255 := by
    rw [jsRoundQ, Int.floor_eq_iff]
    norm_num
  have hzero : jsRoundQ (0 * 255) = 0 := by
    rw [jsRoundQ, Int.floor_eq_iff]
    norm_num
  refine ⟨?_, jsRoundQ_half_bounds, ?_, ?_⟩
  · intro r g b hr0 hr1 hg0 hg1 hb0 hb1
    have hdata : (rgbToHex r g b).data =
        '#' :: (byteHexU (jsRoundQ (r * 255)).toNat ++ byteHexU (jsRoundQ (g * 255)).toNat ++
          byteHexU (jsRoundQ (b * 255)).toNat) := by
      show List.map toUpperChar ('#' :: (toHexByte r ++ toHexByte g ++ toHexByte b)) = _
      rw [List.map_cons, List.map_append, List.map_append,
        toHexByte_map_upper hr0 hr1, toHexByte_map_upper hg0 hg1, toHexByte_map_upper hb0 hb1]
      rfl
    refine ⟨hdata, ?_⟩
    have hlen : (rgbToHex r g b).length = ((rgbToHex r g b).data).length := rfl
    rw [hlen, hdata]
    simp [byteHexU]
  · rw [rgbToHex, toHexByte, toHexByte, h255, hzero]
    decide
  · rw [rgbToHex, toHexByte, hzero]
    decide

/-- Claim C1, counterexample: `"336699"` fails the literal `#RRGGBB`
pattern, yet `hexToRgb565` parses it to `"0x3333"` instead of returning
the sentinel `"0x0000"`. -/
theorem C1_counterexample :
    strictHashPattern "336699" = false ∧ hexToRgb565 "336699" = "0x3333" ∧
      hexToRgb565 "336699" ≠ "0x0000" := by decide

/-- Claim C1 (amended): `hexToRgb565` is total and deterministic; on a
string of six hex digits preceded by `#` (the `#` being optional) it
parses the channels, rescales them to 5/6/5 bits by half-up rounding,
packs `(R5 << 11) | (G6 << 5) | B5` into a 16-bit value and formats it
as a 4-digit upper-case hex string with `0x` prefix, with the stated
example values; on input failing that pattern it returns the sentinel
`"0x0000"`. -/
theorem C1_hexToRgb565_spec :
    hexToRgb565 "#FF0000" = "0xF800" ∧ hexToRgb565 "#00FF00" = "0x07E0" ∧
    hexToRgb565 "#0000FF" = "0x001F" ∧ hexToRgb565 "not-a-color" = "0x0000" ∧
    (∀ s : String, ¬ optHashSixHex s → hexToRgb565 s = "0x0000") ∧
    (∀ c1 c2 c3 c4 c5 c6 : Char, [c1, c2, c3, c4, c5, c6].all isHexDigit = true →
      hexToRgb565 (String.mk ['#', c1, c2, c3, c4, c5, c6]) =
        rgb565str (rgb565pack (16 * hexVal c1 + hexVal c2) (16 * hexVal c3 + hexVal c4)
          (16 * hexVal c5 + hexVal c6))) ∧
    (∀ r8 g8 b8 : ℕ, r8 ≤ 255 → g8 ≤ 255 → b8 ≤ 255 → rgb565pack r8 g8 b8 < 65536) ∧
    (∀ a : ℕ, (jsRoundNat a 255 : ℤ) = ⌊(a : ℚ) / 255 + 1 / 2⌋) := by
  refine ⟨by decide, by decide, by decide, by decide, ?_, ?_, ?_, ?_⟩
  · intro s h
    rw [hexToRgb565, (matchHexTriple_none_iff s).mpr h]
  · intro c1 c2 c3 c4 c5 c6 h
    have hm : matchHexTriple (String.mk ['#', c1, c2, c3, c4, c5, c6]) =
        some (16 * hexVal c1 + hexVal c2, 16 * hexVal c3 + hexVal c4,
          16 * hexVal c5 + hexVal c6) := by
      show sixHexParse (stripHash ('#' :: [c1, c2, c3, c4, c5, c6])) = _
      rw [stripHash_hash, sixHexParse_some h]
    rw [hexToRgb565, hm]
  · intro r8 g8 b8 h1 h2 h3
    have hr : jsRoundNat (r8 * 31) 255 < 32 := by rw [jsRoundNat]; omega
    have hg : jsRoundNat (g8 * 63) 255 < 64 := by rw [jsRoundNat]; omega
    have hb : jsRoundNat (b8 * 31) 255 < 32 := by rw [jsRoundNat]; omega
    have h65536 : (65536 : ℕ) = 2 ^ 16 := by norm_num
    rw [rgb565pack, Nat.shiftLeft_eq, Nat.shiftLeft_eq, h65536]
    refine Nat.or_lt_two_pow (Nat.or_lt_two_pow ?_ ?_) ?_ <;> nlinarith
  · intro a
    have := jsRoundNat_eq_floor a 255 (by norm_num)
    simpa using this

/-- Claim C10: the leading `#` is optional for both hex parsers: a bare
six-hex-digit string parses to the same results as its `#`-prefixed form
(packed RGB565 and the `{r, g, b}` triple respectively, e.g. on
`"336699"`), and the `"0x0000"` and black fail-safe results arise from
the fallback branch exactly when the input is not six hex digits after
an optional `#`. -/
theorem C10_optional_hash_spec :
    (∀ cs : List Char, cs.length = 6 → (∀ c ∈ cs, isHexDigit c = true) →
      hexToRgb565 (String.mk cs) = hexToRgb565 (String.mk ('#' :: cs)) ∧
      hexToRgb (String.mk cs) = hexToRgb (String.mk ('#' :: cs))) ∧
    (∀ c1 c2 c3 c4 c5 c6 : Char, [c1, c2, c3, c4, c5, c6].all isHexDigit = true →
      hexToRgb565 (String.mk [c1, c2, c3, c4, c5, c6]) =
        rgb565str (rgb565pack (16 * hexVal c1 + hexVal c2) (16 * hexVal c3 + hexVal c4)
          (16 * hexVal c5 + hexVal c6)) ∧
      hexToRgb (String.mk [c1, c2, c3, c4, c5, c6]) =
        (((16 * hexVal c1 + hexVal c2 : ℕ) : ℚ) / 255,
          ((16 * hexVal c3 + hexVal c4 : ℕ) : ℚ) / 255,
          ((16 * hexVal c5 + hexVal c6 : ℕ) : ℚ) / 255)) ∧
    (∀ s : String, ¬ optHashSixHex s → hexToRgb565 s = "0x0000" ∧ hexToRgb s = (0, 0, 0)) ∧
    hexToRgb565 "336699" = "0x3333" ∧
    hexToRgb "336699" = ((51 : ℚ) / 255, (102 : ℚ) / 255, (153 : ℚ) / 255) := by
  have hhead : ∀ (c : Char) (rest : List Char), isHexDigit c = true → c ≠ '#' := by
    intro c rest hc heq
    rw [heq] at hc
    exact absurd hc (by decide)
  refine ⟨?_, ?_, ?_, by decide, ?_⟩
  · intro cs hlen hhex
    rcases cs with _ | ⟨c, rest⟩
    · simp at hlen
    · have hne : c ≠ '#' := hhead c rest (hhex c (by simp))
      have hkey : matchHexTriple (String.mk (c :: rest)) =
          matchHexTriple (String.mk ('#' :: c :: rest)) := by
        show sixHexParse (stripHash (c :: rest)) = sixHexParse (stripHash ('#' :: c :: rest))
        rw [stripHash_of_ne rest hne, stripHash_hash]
      exact ⟨by rw [hexToRgb565, hexToRgb565, hkey], by rw [hexToRgb, hexToRgb, hkey]⟩
  · intro c1 c2 c3 c4 c5 c6 h
    have hne : c1 ≠ '#' := by
      refine hhead c1 [] ?_
      have := List.all_eq_true.mp h c1 (by simp)
      exact this
    have hm : matchHexTriple (String.mk [c1, c2, c3, c4, c5, c6]) =
        some (16 * hexVal c1 + hexVal c2, 16 * hexVal c3 + hexVal c4,
          16 * hexVal c5 + hexVal c6) := by
      show sixHexParse (stripHash [c1, c2, c3, c4, c5, c6]) = _
      rw [stripHash_of_ne _ hne, sixHexParse_some h]
    exact ⟨by rw [hexToRgb565, hm], by rw [hexToRgb, hm]⟩
  · intro s h
    have hm := (matchHexTriple_none_iff s).mpr h
    exact ⟨by rw [hexToRgb565, hm], by rw [hexToRgb, hm]⟩
  · have hm : matchHexTriple "336699" = some (51, 102, 153) := by decide
    rw [hexToRgb, hm]
    norm_num

/-! ## Icon token scan: executable scan versus declarative occurrence -/

theorem startsIconTok_iff (cs : List Char) :
    startsIconTok cs = true ↔
      ∃ tok suf, (tok = ['i', 'c'] ∨ tok = ['i', 'c', 'o', 'n']) ∧ cs = tok ++ suf ∧
        (∀ c, suf.head? = some c → isAlnumChar c = false) := by
  constructor
  · intro h
    rw [startsIconTok, Bool.or_eq_true, Bool.and_eq_true, Bool.and_eq_true] at h
    rcases h with ⟨htake, hr⟩ | ⟨htake, hr⟩
    · refine ⟨['i', 'c'], cs.drop 2, Or.inl rfl, ?_, ?_⟩
      · conv_lhs => rw [← List.take_append_drop 2 cs]
        rw [decide_eq_true_eq.mp htake]
      · intro c hc
        rcases hd : cs.drop 2 with _ | ⟨x, xs⟩
        · rw [hd] at hc
          simp at hc
        · rw [hd] at hr hc
          simp only [rightOk, Bool.not_eq_true'] at hr
          simp only [List.head?_cons, Option.some.injEq] at hc
          rw [hc] at hr
          exact hr
    · refine ⟨['i', 'c', 'o', 'n'], cs.drop 4, Or.inr rfl, ?_, ?_⟩
      · conv_lhs => rw [← List.take_append_drop 4 cs]
        rw [decide_eq_true_eq.mp htake]
      · intro c hc
        rcases hd : cs.drop 4 with _ | ⟨x, xs⟩
        · rw [hd] at hc
          simp at hc
        · rw [hd] at hr hc
          simp only [rightOk, Bool.not_eq_true'] at hr
          simp only [List.head?_cons, Option.some.injEq] at hc
          rw [hc] at hr
          exact hr
  · rintro ⟨tok, suf, htok | htok, rfl, hsuf⟩ <;> subst htok <;>
      rw [startsIconTok, Bool.or_eq_true, Bool.and_eq_true, Bool.and_eq_true]
    · refine Or.inl ⟨by simp, ?_⟩
      have hd : (['i', 'c'] ++ suf).drop 2 = suf := rfl
      rw [hd]
      rcases suf with _ | ⟨x, xs⟩
      · rfl
      · simp only [rightOk, Bool.not_eq_true']
        exact hsuf x rfl
    · refine Or.inr ⟨by simp, ?_⟩
      have hd : (['i', 'c', 'o', 'n'] ++ suf).drop 4 = suf := rfl
      rw [hd]
      rcases suf with _ | ⟨x, xs⟩
      · rfl
      · simp only [rightOk, Bool.not_eq_true']
        exact hsuf x rfl

theorem scanIconTok_iff (cs : List Char) :
    ∀ lb : Bool, scanIconTok lb cs = true ↔
      ∃ pre tok suf, (tok = ['i', 'c'] ∨ tok = ['i', 'c', 'o', 'n']) ∧
        cs = pre ++ tok ++ suf ∧
        ((pre = [] ∧ lb = true) ∨ (∃ c pre0, pre = pre0 ++ [c] ∧ isAlnumChar c = false)) ∧
        (∀ c, suf.head? = some c → isAlnumChar c = false) := by
  induction cs with
  | nil =>
      intro lb
      simp only [scanIconTok, Bool.false_eq_true, false_iff]
      rintro ⟨pre, tok, suf, htok | htok, habs, -, -⟩ <;> subst htok <;>
        exact absurd habs.symm (by simp)
  | cons c rest ih =>
      intro lb
      rw [scanIconTok, Bool.or_eq_true, Bool.and_eq_true]
      constructor
      · rintro (⟨hlb, hst⟩ | hsc)
        · obtain ⟨tok, suf, htok, heq, hsuf⟩ := (startsIconTok_iff _).mp hst
          exact ⟨[], tok, suf, htok, by simpa using heq, Or.inl ⟨rfl, hlb⟩, hsuf⟩
        · obtain ⟨pre, tok, suf, htok, heq, hbound, hsuf⟩ := (ih _).mp hsc
          refine ⟨c :: pre, tok, suf, htok, by simp [heq], ?_, hsuf⟩
          rcases hbound with ⟨rfl, hlb⟩ | ⟨c', pre0, rfl, hc'⟩
          · exact Or.inr ⟨c, [], by simp, by simpa using hlb⟩
          · exact Or.inr ⟨c', c :: pre0, by simp, hc'⟩
      · rintro ⟨pre, tok, suf, htok, heq, hbound, hsuf⟩
        rcases pre with _ | ⟨p, pre'⟩
        · left
          rcases hbound with ⟨-, hlb⟩ | ⟨c', pre0, habs, -⟩
          · refine ⟨hlb, (startsIconTok_iff _).mpr ⟨tok, suf, htok, by simpa using heq, hsuf⟩⟩
          · exact absurd habs (by simp)
        · right
          simp only [List.cons_append, List.cons.injEq] at heq
          obtain ⟨rfl, hrest⟩ := heq
          refine (ih (!isAlnumChar c)).mpr ⟨pre', tok, suf, htok, hrest, ?_, hsuf⟩
          rcases hbound with ⟨habs, -⟩ | ⟨c', pre0, hsplit, hc'⟩
          · exact absurd habs (by simp)
          · rcases pre0 with _ | ⟨q, pre0'⟩
            · simp only [List.nil_append, List.cons.injEq] at hsplit
              obtain ⟨rfl, rfl⟩ := hsplit
              exact Or.inl ⟨rfl, by simp [hc']⟩
            · simp only [List.cons_append, List.cons.injEq] at hsplit
              obtain ⟨rfl, hsplit'⟩ := hsplit
              exact Or.inr ⟨c', pre0', hsplit', hc'⟩

theorem hasIconToken_iff (s : String) :
    hasIconToken s = true ↔ iconTokenOccurs (lowerStr s).data := by
  rw [hasIconToken, scanIconTok_iff, iconTokenOccurs]
  constructor
  · rintro ⟨pre, tok, suf, htok, heq, hbound, hsuf⟩
    refine ⟨pre, tok, suf, htok, heq, ?_, hsuf⟩
    intro c hc
    rcases hbound with ⟨rfl, -⟩ | ⟨c', pre0, rfl, hc'⟩
    · simp at hc
    · rw [List.getLast?_concat] at hc
      obtain rfl : c' = c := by injection hc
      exact hc'
  · rintro ⟨pre, tok, suf, htok, heq, hpre, hsuf⟩
    refine ⟨pre, tok, suf, htok, heq, ?_, hsuf⟩
    rcases List.eq_nil_or_concat pre with rfl | ⟨l, a, rfl⟩
    · exact Or.inl ⟨rfl, rfl⟩
    · rw [List.concat_eq_append] at *
      exact Or.inr ⟨a, l, rfl, hpre a (List.getLast?_concat l)⟩

theorem subIconAux_iff (cs : List Char) :
    subIconAux cs = true ↔ ∃ pre suf, cs = pre ++ ['i', 'c', 'o', 'n'] ++ suf := by
  induction cs with
  | nil =>
      simp only [subIconAux, Bool.false_eq_true, false_iff]
      rintro ⟨pre, suf, habs⟩
      exact absurd habs.symm (by simp)
  | cons c rest ih =>
      rw [subIconAux, Bool.or_eq_true]
      constructor
      · rintro (htake | hsc)
        · refine ⟨[], (c :: rest).drop 4, ?_⟩
          conv_lhs => rw [← List.take_append_drop 4 (c :: rest)]
          rw [decide_eq_true_eq.mp htake]
          rfl
        · obtain ⟨pre, suf, heq⟩ := ih.mp hsc
          exact ⟨c :: pre, suf, by simp [heq]⟩
      · rintro ⟨pre, suf, heq⟩
        rcases pre with _ | ⟨p, pre'⟩
        · left
          simp only [List.nil_append] at heq
          rw [heq]
          simp
        · right
          simp only [List.cons_append, List.cons.injEq] at heq
          exact ih.mpr ⟨pre', suf, heq.2⟩

theorem containsIconSub_iff (s : String) :
    containsIconSub s = true ↔
      ∃ pre suf, (lowerStr s).data = pre ++ ['i', 'c', 'o', 'n'] ++ suf := by
  rw [containsIconSub, subIconAux_iff]

/-- Claim C2, counterexample: the component named `Button/Icon` — which
the claim itself classifies as an icon — is an icon for the code's
classifier, but not under the claim's boundary list restricted to
start/end of string, underscore, hyphen and whitespace (the `/` boundary
is accepted by the regex's `\b` but is in none of those classes), so the
claimed "if and only if" fails at this input. -/
theorem C2_counterexample :
    isComponentAnIcon buttonIconComp = true ∧ claimPrimaryIsIcon buttonIconComp = false := by
  decide

/-- Claim C2 (amended): `isComponentAnIcon` returns true exactly when
`ic` or `icon` occurs in the trimmed component name or the variant-set
name with both neighbours (when present) outside the ASCII alphanumeric
class — start/end of string, underscore, hyphen, whitespace, or any
other non-alphanumeric character such as `/` — case-insensitively, or
some variant-property key or value contains the substring `icon`;
`ic_close` and `Button/Icon` are icons, `iconography_panel` and
`PrimaryButton` are not. -/
theorem C2_isComponentAnIcon_spec :
    (∀ mc : MainComponent, isComponentAnIcon mc = true ↔
      iconTokenOccurs (lowerStr (trimStr mc.name)).data ∨
      iconTokenOccurs (lowerStr (setNameStr mc)).data ∨
      (∃ kv ∈ mc.variantProps.getD [],
        (∃ pre suf, (lowerStr kv.1).data = pre ++ ['i', 'c', 'o', 'n'] ++ suf) ∨
        (∃ pre suf, (lowerStr kv.2).data = pre ++ ['i', 'c', 'o', 'n'] ++ suf))) ∧
    isComponentAnIcon ⟨"ic_close", none, none⟩ = true ∧
    isComponentAnIcon buttonIconComp = true ∧
    isComponentAnIcon ⟨"iconography_panel", none, none⟩ = false ∧
    isComponentAnIcon ⟨"PrimaryButton", none, none⟩ = false := by
  refine ⟨?_, by decide, by decide, by decide, by decide⟩
  intro mc
  rw [isComponentAnIcon]
  simp only [Bool.or_eq_true, hasIconToken_iff]
  constructor
  · rintro ((h | h) | h)
    · exact Or.inl h
    · exact Or.inr (Or.inl h)
    · refine Or.inr (Or.inr ?_)
      rcases hvp : mc.variantProps with _ | vp
      · rw [hvp] at h
        simp at h
      · rw [hvp] at h
        simp only [List.any_eq_true, Bool.or_eq_true, containsIconSub_iff] at h
        simpa using h
  · rintro (h | h | h)
    · exact Or.inl (Or.inl h)
    · exact Or.inl (Or.inr h)
    · right
      rcases hvp : mc.variantProps with _ | vp
      · rw [hvp] at h
        simp at h
      · rw [hvp] at h
        simp only [List.any_eq_true, Bool.or_eq_true, containsIconSub_iff]
        simpa using h

/-! ## First-wins map lemmas -/

theorem lookup_append {α : Type} (l₁ l₂ : List (String × α)) (k : String) :
    (l₁ ++ l₂).lookup k = (l₁.lookup k).or (l₂.lookup k) := by
  induction l₁ with
  | nil => simp
  | cons p t ih =>
      rcases p with ⟨k', v⟩
      by_cases h : k = k'
      · simp [List.lookup_cons, h]
      · simp only [List.cons_append, List.lookup_cons, beq_eq_false_iff_ne.mpr h]
        exact ih

theorem lookup_insertIfAbsent {α : Type} (m : List (String × α)) (ke k : String) (ve : α) :
    (insertIfAbsent m ke ve).lookup k =
      (m.lookup k).or (if ke == k then some ve else none) := by
  rw [insertIfAbsent]
  by_cases hs : (m.lookup ke).isSome
  · rw [if_pos hs]
    by_cases hk : ke = k
    · subst hk
      obtain ⟨v, hv⟩ := Option.isSome_iff_exists.mp hs
      simp [hv]
    · simp [beq_eq_false_iff_ne.mpr hk]
  · rw [if_neg hs]
    rw [lookup_append]
    congr 1
    by_cases hk : k = ke
    · subst hk
      simp [List.lookup_cons]
    · simp [List.lookup_cons, beq_eq_false_iff_ne.mpr hk,
        beq_eq_false_iff_ne.mpr (fun h => hk h.symm)]

theorem lookup_buildMap {α β : Type} (keyOf : β → String) (valOf : β → α) :
    ∀ (l : List β) (init : List (String × α)) (k : String),
      (buildMap keyOf valOf init l).lookup k =
        (init.lookup k).or (((l.find? fun e => keyOf e == k).map valOf)) := by
  intro l
  induction l with
  | nil => intro init k; simp [buildMap]
  | cons e t ih =>
      intro init k
      have hstep : buildMap keyOf valOf init (e :: t) =
          buildMap keyOf valOf (insertIfAbsent init (keyOf e) (valOf e)) t := rfl
      rw [hstep, ih, lookup_insertIfAbsent, Option.or_assoc]
      congr 1
      rw [List.find?_cons]
      by_cases h : keyOf e == k
      · simp [h]
      · simp [h]

theorem mem_keys_lookup_isSome {α : Type} :
    ∀ (m : List (String × α)) (k : String), k ∈ m.map Prod.fst → (m.lookup k).isSome := by
  intro m
  induction m with
  | nil => simp
  | cons p t ih =>
      intro k hk
      rcases p with ⟨k', v⟩
      simp only [List.map_cons, List.mem_cons] at hk
      rcases hk with rfl | hk
      · simp [List.lookup_cons]
      · rw [List.lookup_cons]
        by_cases h : k == k'
        · simp [h]
        · simp only [h]
          exact ih k hk

theorem insertIfAbsent_keys_nodup {α : Type} (m : List (String × α)) (ke : String) (ve : α)
    (h : (m.map Prod.fst).Nodup) : ((insertIfAbsent m ke ve).map Prod.fst).Nodup := by
  rw [insertIfAbsent]
  by_cases hs : (m.lookup ke).isSome
  · rw [if_pos hs]
    exact h
  · rw [if_neg hs]
    rw [List.map_append]
    rw [List.nodup_append]
    refine ⟨h, by simp, ?_⟩
    intro k hk
    simp only [List.map_cons, List.map_nil, List.mem_singleton]
    intro hke
    subst hke
    exact hs (mem_keys_lookup_isSome m k hk)

theorem buildMap_keys_nodup {α β : Type} (keyOf : β → String) (valOf : β → α) :
    ∀ (l : List β) (init : List (String × α)),
      (init.map Prod.fst).Nodup → ((buildMap keyOf valOf init l).map Prod.fst).Nodup := by
  intro l
  induction l with
  | nil => intro init h; exact h
  | cons e t ih =>
      intro init h
      exact ih _ (insertIfAbsent_keys_nodup init (keyOf e) (valOf e) h)

theorem buildMap_id_fst {β : Type} (keyOf : β → String) :
    ∀ (l : List β) (init : List (String × β)),
      (∀ p ∈ init, p.1 = keyOf p.2) →
      ∀ p ∈ buildMap keyOf id init l, p.1 = keyOf p.2 := by
  intro l
  induction l with
  | nil => intro init h; exact h
  | cons e t ih =>
      intro init h
      refine ih _ ?_
      intro p hp
      simp only [insertIfAbsent] at hp
      by_cases hs : (init.lookup (keyOf e)).isSome
      · rw [if_pos hs] at hp
        exact h p hp
      · rw [if_neg hs] at hp
        rcases List.mem_append.mp hp with hp | hp
        · exact h p hp
        · simp only [List.mem_singleton] at hp
          subst hp
          rfl

/-! ## Flattening the aggregation folds -/

theorem buildMap_append {α β : Type} (keyOf : β → String) (valOf : β → α)
    (init : List (String × α)) (l₁ l₂ : List β) :
    buildMap keyOf valOf init (l₁ ++ l₂) =
      buildMap keyOf valOf (buildMap keyOf valOf init l₁) l₂ :=
  List.foldl_append _ _ _ _

theorem collect_fields (records : List AnalysisRecord) :
    ∀ acc : SummaryMaps,
      (records.foldl collectStep acc).components =
        buildMap compKey id acc.components
          (records.flatMap fun r => (normalizeComponentIconClassification r.components r.icons).1) ∧
      (records.foldl collectStep acc).icons =
        buildMap compKey id acc.icons
          (records.flatMap fun r => (normalizeComponentIconClassification r.components r.icons).2) ∧
      (records.foldl collectStep acc).fonts =
        buildMap fontSumKey id acc.fonts (records.flatMap fun r => r.fonts) ∧
      (records.foldl collectStep acc).colors =
        buildMap (fun c => c.hex) id acc.colors (records.flatMap fun r => r.colors) := by
  induction records with
  | nil => intro acc; refine ⟨rfl, rfl, rfl, rfl⟩
  | cons r t ih =>
      intro acc
      have hfold : (r :: t).foldl collectStep acc = t.foldl collectStep (collectStep acc r) := rfl
      obtain ⟨h1, h2, h3, h4⟩ := ih (collectStep acc r)
      refine ⟨?_, ?_, ?_, ?_⟩
      · rw [hfold, h1, List.flatMap_cons, buildMap_append]
        rfl
      · rw [hfold, h2, List.flatMap_cons, buildMap_append]
        rfl
      · rw [hfold, h3, List.flatMap_cons, buildMap_append]
        rfl
      · rw [hfold, h4, List.flatMap_cons, buildMap_append]
        rfl

theorem lvgl_fields (records : List AnalysisRecord) :
    ∀ acc : LvglJson,
      (records.foldl lvglStep acc).typography =
        buildMap (fun f => sanitizeIdentifier (fontStyleKey f)) fontExportOf acc.typography
          (records.flatMap fun r => r.fonts) ∧
      (records.foldl lvglStep acc).colors =
        buildMap (fun c => sanitizeIdentifier (colorStyleKey c)) colorExportOf acc.colors
          (records.flatMap fun r => r.colors) := by
  induction records with
  | nil => intro acc; exact ⟨rfl, rfl⟩
  | cons r t ih =>
      intro acc
      have hfold : (r :: t).foldl lvglStep acc = t.foldl lvglStep (lvglStep acc r) := rfl
      obtain ⟨h1, h2⟩ := ih (lvglStep acc r)
      refine ⟨?_, ?_⟩
      · rw [hfold, h1, List.flatMap_cons, buildMap_append]
        rfl
      · rw [hfold, h2, List.flatMap_cons, buildMap_append]
        rfl

/-- Claim C3: `collectSummaryData` deduplicates components and icons
across records by `masterName` (standalone) or `masterName:variantName`
(variants), and colors by hex alone; the first stream occurrence wins
entirely (the stored value is the first matching entry, so instance
counts are never summed and a later occurrence of the same hex at a
different opacity adds no separate entry); concretely, two records whose
components share a key keep the first record's `instanceCount`, and two
colors sharing a hex at different opacities produce one entry. -/
theorem C3_collectSummaryData_spec :
    (∀ (records : List AnalysisRecord) (k : String),
      (collectSummaryData records).components.lookup k =
        ((records.flatMap fun r =>
          (normalizeComponentIconClassification r.components r.icons).1).find?
            fun c => compKey c == k) ∧
      (collectSummaryData records).icons.lookup k =
        ((records.flatMap fun r =>
          (normalizeComponentIconClassification r.components r.icons).2).find?
            fun c => compKey c == k) ∧
      (collectSummaryData records).colors.lookup k =
        ((records.flatMap fun r => r.colors).find? fun c => c.hex == k)) ∧
    (∀ records : List AnalysisRecord,
      ((collectSummaryData records).colors.map Prod.fst).Nodup ∧
      ∀ p ∈ (collectSummaryData records).colors, p.1 = p.2.hex) ∧
    (collectSummaryData
        [⟨[⟨"Button", none, "Button", "", "", false, 5, false⟩], [], [], []⟩,
         ⟨[⟨"Button", none, "Button", "", "", false, 7, false⟩], [], [], []⟩]).components =
      [("Button", ⟨"Button", none, "Button", "", "", false, 5, false⟩)] ∧
    (collectSummaryData
        [⟨[], [], [], [⟨"#112233", "0x1106", 1, none, "fill"⟩]⟩,
         ⟨[], [], [], [⟨"#112233", "0x1106", 1 / 2, some "Half", "fill"⟩]⟩]).colors =
      [("#112233", ⟨"#112233", "0x1106", 1, none, "fill"⟩)] := by
  refine ⟨?_, ?_, ?_, ?_⟩
  · intro records k
    obtain ⟨h1, h2, h3, h4⟩ := collect_fields records ⟨[], [], [], []⟩
    rw [collectSummaryData, h1, h2, h4]
    refine ⟨?_, ?_, ?_⟩ <;>
      rw [lookup_buildMap] <;> simp [Option.map_id]
  · intro records
    obtain ⟨-, -, -, h4⟩ := collect_fields records ⟨[], [], [], []⟩
    rw [collectSummaryData, h4]
    constructor
    · exact buildMap_keys_nodup _ _ _ _ (by simp)
    · exact buildMap_id_fst _ _ _ (by simp)
  · simp only [collectSummaryData, List.foldl_cons, List.foldl_nil]
    rfl
  · simp only [collectSummaryData, List.foldl_cons, List.foldl_nil]
    rfl

/-- Claim C4: `generateLVGLJson` keys every typography and color entry
by the style name when present, else `family_style_size` (fonts) or
`color_RRGGBB` (colors), sanitized (strip to alphanumerics, underscore,
hyphen, space; collapse space/hyphen runs to one underscore;
lower-case); under a sanitized-key collision the first written entry
wins and the later one is dropped silently — `"Primary Color"` and
`"primary-color"` both sanitize to `"primary_color"` and only the first
color's data is kept. -/
theorem C4_generateLVGLJson_spec :
    (∀ (records : List AnalysisRecord) (k : String),
      (generateLVGLJson records).typography.lookup k =
        (((records.flatMap fun r => r.fonts).find?
          fun f => sanitizeIdentifier (fontStyleKey f) == k).map fontExportOf) ∧
      (generateLVGLJson records).colors.lookup k =
        (((records.flatMap fun r => r.colors).find?
          fun c => sanitizeIdentifier (colorStyleKey c) == k).map colorExportOf)) ∧
    sanitizeIdentifier "Primary Color" = "primary_color" ∧
    sanitizeIdentifier "primary-color" = "primary_color" ∧
    (generateLVGLJson
        [⟨[], [], [], [⟨"#112233", "0x1106", 1, some "Primary Color", "fill"⟩,
                       ⟨"#445566", "0x4229", 1, some "primary-color", "fill"⟩]⟩]).colors =
      [("primary_color", colorExportOf ⟨"#112233", "0x1106", 1, some "Primary Color", "fill"⟩)] ∧
    colorExportOf ⟨"#112233", "0x1106", 1, some "Primary Color", "fill"⟩ ≠
      colorExportOf ⟨"#445566", "0x4229", 1, some "primary-color", "fill"⟩ := by
  refine ⟨?_, by decide, by decide, ?_, by decide⟩
  · intro records k
    obtain ⟨h1, h2⟩ := lvgl_fields records ⟨[], []⟩
    rw [generateLVGLJson, h1, h2]
    exact ⟨by rw [lookup_buildMap]; simp, by rw [lookup_buildMap]; simp⟩
  · simp only [generateLVGLJson, List.foldl_cons, List.foldl_nil]
    rfl

/-! ## Upsert lemmas -/

theorem lookup_map_update {α : Type} (m : List (String × α)) (key : String) (g : α → α) :
    ∀ k : String,
      (m.map fun p => if p.1 = key then (p.1, g p.2) else p).lookup k =
        if k = key then (m.lookup k).map g else m.lookup k := by
  induction m with
  | nil => intro k; simp
  | cons p t ih =>
      intro k
      rcases p with ⟨k', v⟩
      by_cases hk' : k' = key
      · subst hk'
        by_cases hkk : k = k'
        · subst hkk
          simp [List.lookup_cons]
        · simp [List.lookup_cons, beq_eq_false_iff_ne.mpr hkk, if_neg hkk, ih k]
      · by_cases hkk : k = k'
        · subst hkk
          simp [List.lookup_cons, if_neg hk']
        · simp [List.lookup_cons, beq_eq_false_iff_ne.mpr hkk, if_neg hk', ih k]

/-- Claim C7: when an upsert hits an existing fonts- or colors-map entry,
only a missing style name may change — it is backfilled by the first
truthy style name and never overwritten afterwards, neither by null nor
by a different name — while `hex`, `opacity` and `type` (colors) and
`fontFamily`, `fontStyle`, `fontSize` (fonts) are unchanged; in
particular the `type`/placement chosen by the first producer stays. -/
theorem C7_upsert_backfill_spec :
    (∀ (m : List (String × ColorInfo)) (key : String) (info old : ColorInfo),
      m.lookup key = some old →
      ∃ v, (upsertColor m key info).lookup key = some v ∧
        v.hex = old.hex ∧ v.opacity = old.opacity ∧ v.type = old.type ∧
        (info.styleName = none → v.styleName = old.styleName) ∧
        (∀ s, old.styleName = some s → s ≠ "" → v.styleName = some s) ∧
        (old.styleName = none → ∀ s, info.styleName = some s → s ≠ "" →
          v.styleName = some s)) ∧
    (∀ (m : List (String × FontInfo)) (key : String) (info old : FontInfo),
      m.lookup key = some old →
      ∃ v, (upsertFont m key info).lookup key = some v ∧
        v.fontFamily = old.fontFamily ∧ v.fontStyle = old.fontStyle ∧
        v.fontSize = old.fontSize ∧
        (info.styleName = none → v.styleName = old.styleName) ∧
        (∀ s, old.styleName = some s → s ≠ "" → v.styleName = some s) ∧
        (old.styleName = none → ∀ s, info.styleName = some s → s ≠ "" →
          v.styleName = some s)) := by
  constructor
  · intro m key info old hold
    simp only [upsertColor, hold]
    by_cases hcond : (strTruthy info.styleName && !strTruthy old.styleName) = true
    · rw [if_pos hcond]
      rw [Bool.and_eq_true, Bool.not_eq_true'] at hcond
      refine ⟨{ old with styleName := info.styleName }, ?_, rfl, rfl, rfl, ?_, ?_, ?_⟩
      · rw [lookup_map_update m key (fun ci => { ci with styleName := info.styleName }) key,
          if_pos rfl, hold]
        rfl
      · intro hnone
        rw [hnone] at hcond
        exact absurd hcond.1 (by simp [strTruthy])
      · intro s hs hne
        rw [hs] at hcond
        exact absurd hcond.2 (by simp [strTruthy, hs, String.isEmpty_iff, hne])
      · intro _ s hs _
        simp [hs]
    · rw [if_neg hcond]
      refine ⟨old, hold, rfl, rfl, rfl, fun _ => rfl, fun s hs _ => hs, ?_⟩
      intro hnone s hs hne
      rw [Bool.and_eq_true, Bool.not_eq_true'] at hcond
      push_neg at hcond
      exfalso
      have h1 : strTruthy info.styleName = true := by
        simp only [strTruthy, hs, Bool.not_eq_true']
        exact Bool.eq_false_iff.mpr fun h => hne ((String.isEmpty_iff _).mp h)
      have h2 : strTruthy old.styleName = false := by simp [strTruthy, hnone]
      exact absurd h2 (by simpa using hcond h1)
  · intro m key info old hold
    simp only [upsertFont, hold]
    by_cases hcond : (strTruthy info.styleName && !strTruthy old.styleName) = true
    · rw [if_pos hcond]
      rw [Bool.and_eq_true, Bool.not_eq_true'] at hcond
      refine ⟨{ old with styleName := info.styleName }, ?_, rfl, rfl, rfl, ?_, ?_, ?_⟩
      · rw [lookup_map_update m key (fun fi => { fi with styleName := info.styleName }) key,
          if_pos rfl, hold]
        rfl
      · intro hnone
        rw [hnone] at hcond
        exact absurd hcond.1 (by simp [strTruthy])
      · intro s hs hne
        rw [hs] at hcond
        exact absurd hcond.2 (by simp [strTruthy, hs, String.isEmpty_iff, hne])
      · intro _ s hs _
        simp [hs]
    · rw [if_neg hcond]
      refine ⟨old, hold, rfl, rfl, rfl, fun _ => rfl, fun s hs _ => hs, ?_⟩
      intro hnone s hs hne
      rw [Bool.and_eq_true, Bool.not_eq_true'] at hcond
      push_neg at hcond
      exfalso
      have h1 : strTruthy info.styleName = true := by
        simp only [strTruthy, hs, Bool.not_eq_true']
        exact Bool.eq_false_iff.mpr fun h => hne ((String.isEmpty_iff _).mp h)
      have h2 : strTruthy old.styleName = false := by simp [strTruthy, hnone]
      exact absurd h2 (by simpa using hcond h1)

/-! ## Opacity invariants of the paint loop -/

theorem mem_upsertColor_opacity (colors : List (String × ColorInfo)) (key : String)
    (info : ColorInfo) :
    ∀ p ∈ upsertColor colors key info,
      p.2.opacity = info.opacity ∨ ∃ q ∈ colors, p.2.opacity = q.2.opacity := by
  intro p hp
  rcases hl : colors.lookup key with _ | old
  · simp only [upsertColor, hl] at hp
    rcases List.mem_append.mp hp with hmem | hmem
    · exact Or.inr ⟨p, hmem, rfl⟩
    · simp only [List.mem_singleton] at hmem
      subst hmem
      exact Or.inl rfl
  · simp only [upsertColor, hl] at hp
    by_cases hcond : (strTruthy info.styleName && !strTruthy old.styleName) = true
    · rw [if_pos hcond] at hp
      obtain ⟨q, hq, heq⟩ := List.mem_map.mp hp
      by_cases hqk : q.1 = key
      · rw [if_pos hqk] at heq
        subst heq
        exact Or.inr ⟨q, hq, rfl⟩
      · rw [if_neg hqk] at heq
        subst heq
        exact Or.inr ⟨q, hq, rfl⟩
    · rw [if_neg hcond] at hp
      exact Or.inr ⟨p, hp, rfl⟩

theorem processPaint_opacity_inv (stn : Option String) (kind : String)
    (colors : List (String × ColorInfo)) (f : Paint)
    (hf : ∀ o, f.opacity = some o → 0 ≤ o ∧ o ≤ 1)
    (hc : ∀ p ∈ colors, 0 < p.2.opacity ∧ p.2.opacity ≤ 1) :
    ∀ p ∈ processPaint stn kind colors f, 0 < p.2.opacity ∧ p.2.opacity ≤ 1 := by
  intro p hp
  rw [processPaint] at hp
  split at hp
  case isTrue hcond =>
    rcases mem_upsertColor_opacity _ _ _ p hp with h | ⟨q, hq, he⟩
    · rw [h]
      simp only [Bool.and_eq_true, Bool.not_eq_true', decide_eq_false_iff_not] at hcond
      rcases ho : f.opacity with _ | o
      · simp only [ho, Option.getD_none]
        norm_num
      · simp only [ho, Option.getD_some]
        obtain ⟨h0, h1⟩ := hf o ho
        have hne : o ≠ 0 := by
          intro h
          subst h
          exact hcond.2 ho
        exact ⟨lt_of_le_of_ne h0 (Ne.symm hne), h1⟩
    · rw [he]
      exact hc q hq
  case isFalse => exact hc p hp

theorem processPaints_opacity_inv (stn : Option String) (kind : String) :
    ∀ (fills : List Paint) (colors : List (String × ColorInfo)),
      (∀ f ∈ fills, ∀ o, f.opacity = some o → 0 ≤ o ∧ o ≤ 1) →
      (∀ p ∈ colors, 0 < p.2.opacity ∧ p.2.opacity ≤ 1) →
      ∀ p ∈ processPaints stn kind fills colors, 0 < p.2.opacity ∧ p.2.opacity ≤ 1 := by
  intro fills
  induction fills with
  | nil => intro colors _ hc; exact hc
  | cons f t ih =>
      intro colors hf hc
      refine ih (processPaint stn kind colors f) (fun g hg => hf g (List.mem_cons_of_mem f hg)) ?_
      exact processPaint_opacity_inv stn kind colors f (hf f (List.mem_cons_self f t)) hc

/-- Claim C5: a solid paint with opacity exactly 0 contributes nothing;
given host opacities in `[0, 1]`, every stored opacity lies in `(0, 1]`
(1 when unspecified); and the half-opacity color key carries the rounded
percentage suffix `@50%`, so the same hex at opacity 0.5 and at opacity
1 yields two distinct entries of the colors collection. -/
theorem C5_opacity_spec :
    (∀ (stn : Option String) (kind : String) (fills : List Paint)
       (colors : List (String × ColorInfo)),
      (∀ f ∈ fills, ∀ o, f.opacity = some o → 0 ≤ o ∧ o ≤ 1) →
      (∀ p ∈ colors, 0 < p.2.opacity ∧ p.2.opacity ≤ 1) →
      ∀ p ∈ processPaints stn kind fills colors, 0 < p.2.opacity ∧ p.2.opacity ≤ 1) ∧
    (∀ (stn : Option String) (kind : String) (colors : List (String × ColorInfo)) (f : Paint),
      f.opacity = some 0 → processPaint stn kind colors f = colors) ∧
    (∀ hex : String, colorKeyOf hex (1 / 2) = hex ++ "@50%" ∧ colorKeyOf hex 1 = hex ∧
      colorKeyOf hex (1 / 2) ≠ colorKeyOf hex 1) ∧
    (∀ (stn : Option String) (kind : String) (rgb : Rgb),
      (processPaints stn kind
        [⟨"SOLID", some rgb, true, some (1 / 2)⟩, ⟨"SOLID", some rgb, true, none⟩] []).map
          Prod.fst =
        [rgbToHex rgb.r rgb.g rgb.b ++ "@50%", rgbToHex rgb.r rgb.g rgb.b]) := by
  have hround : jsRoundQ ((1 : ℚ) / 2 * 100) = 50 := by
    have h : ((1 : ℚ) / 2 * 100) = ((50 : ℤ) : ℚ) := by norm_num
    rw [h, jsRoundQ_intCast]
  have hkeyhalf : ∀ hex : String, colorKeyOf hex (1 / 2) = hex ++ "@50%" := by
    intro hex
    rw [colorKeyOf, if_pos (by norm_num), hround, String.append_assoc, String.append_assoc]
    congr 1
  have hkeyone : ∀ hex : String, colorKeyOf hex 1 = hex := by
    intro hex
    rw [colorKeyOf, if_neg (by norm_num)]
  have hkeyne : ∀ hex : String, hex ++ "@50%" ≠ hex := by
    intro hex heq
    have hlen := congrArg String.length heq
    rw [String.length_append] at hlen
    have h4 : ("@50%" : String).length = 4 := by decide
    omega
  refine ⟨processPaints_opacity_inv, ?_, ?_, ?_⟩
  · intro stn kind colors f h
    rw [processPaint, if_neg]
    simp [h]
  · intro hex
    exact ⟨hkeyhalf hex, hkeyone hex, by rw [hkeyhalf hex, hkeyone hex]; exact hkeyne hex⟩
  · intro stn kind rgb
    have hhalf : ((1 : ℚ) / 2) ≠ 0 := by norm_num
    have h1 : processPaint stn kind [] ⟨"SOLID", some rgb, true, some (1 / 2)⟩ =
        [(colorKeyOf (rgbToHex rgb.r rgb.g rgb.b) (1 / 2),
          ⟨rgbToHex rgb.r rgb.g rgb.b, 1 / 2, stn, kind⟩)] := by
      rw [processPaint, if_pos (by simp [hhalf])]
      rfl
    have h2 : processPaint stn kind
        [(rgbToHex rgb.r rgb.g rgb.b ++ "@50%",
          ⟨rgbToHex rgb.r rgb.g rgb.b, 1 / 2, stn, kind⟩)]
        ⟨"SOLID", some rgb, true, none⟩ =
        [(rgbToHex rgb.r rgb.g rgb.b ++ "@50%",
          ⟨rgbToHex rgb.r rgb.g rgb.b, 1 / 2, stn, kind⟩),
         (rgbToHex rgb.r rgb.g rgb.b,
          ⟨rgbToHex rgb.r rgb.g rgb.b, 1, stn, kind⟩)] := by
      rw [processPaint, if_pos (by simp)]
      show upsertColor _ (colorKeyOf (rgbToHex rgb.r rgb.g rgb.b) 1) _ = _
      rw [hkeyone]
      rw [upsertColor]
      have hlook : List.lookup (rgbToHex rgb.r rgb.g rgb.b)
          [(rgbToHex rgb.r rgb.g rgb.b ++ "@50%",
            (⟨rgbToHex rgb.r rgb.g rgb.b, 1 / 2, stn, kind⟩ : ColorInfo))] = none := by
        rw [List.lookup_cons]
        have hne : (rgbToHex rgb.r rgb.g rgb.b ==
            rgbToHex rgb.r rgb.g rgb.b ++ "@50%") = false :=
          beq_eq_false_iff_ne.mpr fun h => hkeyne _ h.symm
        rw [hne]
        rfl
      rw [hlook]
      rfl
    rw [processPaints, List.foldl_cons, h1, hkeyhalf, List.foldl_cons, h2, List.foldl_nil]
    rfl

/-! ## The gate (claim C6) -/

theorem analyzeNodeSkip_iff (n : NodeModel) :
    analyzeNodeSkip n = true ↔ (n.visible = false ∨ (n.width < 1 ∧ n.height < 1)) := by
  rw [analyzeNodeSkip]
  simp [Bool.or_eq_true, Bool.and_eq_true, decide_eq_true_eq, Bool.not_eq_true']

/-- Claim C6, counterexample: a visible 0.7 × 0.7 node is not excluded
under the claim's reading (0.7 rounds to 1, not below 1), yet the code's
gate drops it: the traversal filter rejects it and the extraction slice
contributes nothing even though its solid red fill would otherwise
produce an entry. -/
theorem C6_counterexample :
    ¬ claimGate smallRedNode ∧ findAllKeep smallRedNode = false ∧
      analyzeNodeColors smallRedNode [] = [] ∧
      processPaints smallRedNode.fillStyleName "fill" smallRedNode.fills [] ≠ [] := by
  have hround : jsRoundQ (7 / 10 : ℚ) = 1 := by
    rw [jsRoundQ, Int.floor_eq_iff]
    norm_num
  refine ⟨?_, ?_, ?_, ?_⟩
  · rintro (h | ⟨h1, h2⟩)
    · exact absurd h (by simp [smallRedNode])
    · rw [show smallRedNode.width = (7 / 10 : ℚ) from rfl, hround] at h1
      omega
  · rw [findAllKeep]
    rw [show smallRedNode.visible = true from rfl]
    rw [show smallRedNode.width = (7 / 10 : ℚ) from rfl,
      show smallRedNode.height = (7 / 10 : ℚ) from rfl]
    rw [Bool.true_and, Bool.or_self]
    exact decide_eq_false (by norm_num)
  · rw [analyzeNodeColors, if_pos]
    rw [analyzeNodeSkip_iff]
    exact Or.inr ⟨show (7 / 10 : ℚ) < 1 by norm_num, show (7 / 10 : ℚ) < 1 by norm_num⟩
  · rw [show smallRedNode.fills = [⟨"SOLID", some ⟨1, 0, 0⟩, true, none⟩] from rfl]
    rw [processPaints, List.foldl_cons, List.foldl_nil, processPaint, if_pos (by simp)]
    simp [upsertColor]

/-- Claim C6 (amended): a node is excluded from the color-extraction
slice (and rejected by the traversal filter) exactly when it is
explicitly invisible or both its width and height are strictly below 1
layout unit (no rounding); all other nodes are processed through the
fill and stroke loops. -/
theorem C6_gate_spec :
    (∀ (n : NodeModel) (colors : List (String × ColorInfo)),
      (n.visible = false ∨ (n.width < 1 ∧ n.height < 1)) →
        analyzeNodeColors n colors = colors) ∧
    (∀ (n : NodeModel) (colors : List (String × ColorInfo)),
      ¬ (n.visible = false ∨ (n.width < 1 ∧ n.height < 1)) →
        analyzeNodeColors n colors =
          processPaints n.strokeStyleName "stroke" n.strokes
            (processPaints n.fillStyleName "fill" n.fills colors)) ∧
    (∀ n : NodeModel,
      findAllKeep n = true ↔ ¬ (n.visible = false ∨ (n.width < 1 ∧ n.height < 1))) := by
  refine ⟨?_, ?_, ?_⟩
  · intro n colors h
    rw [analyzeNodeColors, if_pos ((analyzeNodeSkip_iff n).mpr h)]
  · intro n colors h
    rw [analyzeNodeColors, if_neg]
    intro hskip
    exact h ((analyzeNodeSkip_iff n).mp hskip)
  · intro n
    rw [findAllKeep]
    simp only [Bool.and_eq_true, Bool.or_eq_true, decide_eq_true_eq]
    constructor
    · rintro ⟨hv, hwh⟩ (hfalse | ⟨hw, hh⟩)
      · rw [hv] at hfalse
        exact Bool.noConfusion hfalse
      · rcases hwh with h | h
        · exact absurd h (not_le.mpr hw)
        · exact absurd h (not_le.mpr hh)
    · intro h
      push_neg at h
      obtain ⟨hv, hwh⟩ := h
      have hv' : n.visible = true := by
        cases hvis : n.visible
        · exact absurd hvis hv
        · rfl
      refine ⟨hv', ?_⟩
      by_cases hw : n.width < 1
      · exact Or.inr (hwh hw)
      · exact Or.inl (not_lt.mp hw)

/-! ## The reclassification pass (claim C8) -/

theorem reclassify_eq (l : List CompRef) :
    reclassify l =
      ((l.filter fun c => !looksIconReclass c).map (setIconFlag false),
        (l.filter looksIconReclass).map (setIconFlag true)) := by
  induction l with
  | nil => rfl
  | cons c t ih =>
      rw [reclassify, ih]
      by_cases h : looksIconReclass c
      · simp [h, List.filter_cons]
      · simp [h, List.filter_cons]

theorem setIconFlag_idem (b : Bool) (x : CompRef) :
    setIconFlag false (setIconFlag b x) = setIconFlag false x := rfl

/-- Claim C8: after `normalizeComponentIconClassification`, the two
output collections form a disjoint partition of the input union — up to
the stamped flag, the outputs together are a permutation of the union,
no reference sits in both, and every entry's `isIcon` flag matches its
placement. -/
theorem C8_normalize_partition_spec :
    ∀ comps icons : List CompRef,
      (∀ c ∈ (normalizeComponentIconClassification comps icons).1, c.isIcon = false) ∧
      (∀ c ∈ (normalizeComponentIconClassification comps icons).2, c.isIcon = true) ∧
      (∀ c, c ∈ (normalizeComponentIconClassification comps icons).1 →
        c ∉ (normalizeComponentIconClassification comps icons).2) ∧
      List.Perm
        ((normalizeComponentIconClassification comps icons).1.map (setIconFlag false) ++
          (normalizeComponentIconClassification comps icons).2.map (setIconFlag false))
        ((comps ++ icons).map (setIconFlag false)) := by
  intro comps icons
  rw [normalizeComponentIconClassification, reclassify_eq]
  refine ⟨?_, ?_, ?_, ?_⟩
  · intro c hc
    obtain ⟨q, -, rfl⟩ := List.mem_map.mp hc
    rfl
  · intro c hc
    obtain ⟨q, -, rfl⟩ := List.mem_map.mp hc
    rfl
  · intro c hc1 hc2
    obtain ⟨q, -, rfl⟩ := List.mem_map.mp hc1
    obtain ⟨q', -, habs⟩ := List.mem_map.mp hc2
    have h2 : (setIconFlag true q').isIcon = true := rfl
    rw [habs] at h2
    simp [setIconFlag] at h2
  · simp only [List.map_map]
    have hf1 : (setIconFlag false ∘ setIconFlag false) = setIconFlag false :=
      funext fun x => rfl
    have hf2 : (setIconFlag false ∘ setIconFlag true) = setIconFlag false :=
      funext fun x => rfl
    rw [hf1, hf2, ← List.map_append]
    refine List.Perm.map (setIconFlag false) ?_
    exact List.perm_append_comm.trans
      (List.filter_append_perm looksIconReclass (comps ++ icons))

end FrameAnalyser
